import Mathlib

/-!
Verification of the vyper-rs crate against its natural-language specification.

The Rust sources are shallowly embedded: pure functions become Lean functions,
process invocations are abstracted by an oracle `Exec` mapping a command to the
spawned process's captured output, and Rust `panic!` / out-of-bounds slice
aborts are made explicit as a dedicated constructor of the result type.
Machine integers are modelled as `Nat` (all byte values are below 256 at the
Rust types, and the arithmetic involved never overflows `u32`).
-/

/-- Rust strings are modelled as lists of characters, so that the character
level processing done by `vyper.rs` (`pop`, `starts_with`, `split`) has a
structural embedding. -/
abbrev Str := List Char

def str (s : String) : Str := s.toList

/-- Outcome of a Rust function returning `Result`, with an explicit marker for
a `panic!` or an out-of-bounds slice abort. -/
inductive RustResult (ε α : Type) where
  | ok (a : α)
  | err (e : ε)
  | panicked
deriving DecidableEq

instance {ε α : Type} [DecidableEq ε] [DecidableEq α] : DecidableEq (Except ε α) :=
  fun x y =>
    match x, y with
    | .ok a, .ok b =>
      if h : a = b then .isTrue (by rw [h]) else .isFalse (by intro hc; cases hc; exact h rfl)
    | .error a, .error b =>
      if h : a = b then .isTrue (by rw [h]) else .isFalse (by intro hc; cases hc; exact h rfl)
    | .ok _, .error _ => .isFalse (by intro hc; cases hc)
    | .error _, .ok _ => .isFalse (by intro hc; cases hc)

/-- The crate error enum from `vyper_errors.rs`. Payloads that are opaque
foreign types (`io::Error`, `serde_json::Error`, `JoinError`,
`ParseIntError`) are dropped; string payloads are kept. -/
inductive VyperErrors where
  | IoError
  | CompilerError (msg : Str)
  | SerializationError
  | ConcurrencyError
  | PipError (msg : Str)
  | DirError (msg : Str)
  | VenvError (msg : Str)
  | BlueprintError (msg : Str)
  | IntParseError
  | StringParsingError
deriving DecidableEq

/-- `utils.rs`: the decoded ERC-5202 blueprint container. -/
structure Blueprint where
  erc_version : Nat
  preamble_data : Option (List Nat)
  initcode : List Nat
deriving DecidableEq

/-- `hex::encode` of one byte: its two hex digits, most significant first,
represented by their numeric values (0–15). -/
def byteHexDigits (b : Nat) : List Nat := [b / 16, b % 16]

/-- `hex::encode` of a byte slice, as the list of hex-digit values. -/
def hex_encode (bs : List Nat) : List Nat := (bs.map byteHexDigits).flatten

/-- `u32::from_str_radix` on a digit string: every digit must be strictly
below the radix, and the value is accumulated most significant digit first.
The digit list is never empty at the call site in `parse_blueprint` (the
zero-length case is matched away before), and the value fits `u32` for the
radixes that occur (at most four hex digits). -/
def from_str_radix (digits : List Nat) (radix : Nat) : Option Nat :=
  if digits ≠ [] ∧ digits.all (fun d => d < radix) then
    some (digits.foldl (fun acc d => acc * radix + d) 0)
  else none

/-- The tail of `utils.rs::parse_blueprint` after `data_length` has been
computed: slice out the preamble data (lines 54–60) and the initcode
(lines 62–69).  The preamble slice `bytecode[data_start..data_start+len]`
aborts when it reaches past the end of the input. -/
def parse_blueprint_rest (bytecode : List Nat) (erc_version n_length_bytes data_length : Nat) :
    RustResult VyperErrors Blueprint :=
  let data_start := 3 + n_length_bytes
  if data_length ≠ 0 ∧ bytecode.length < data_start + data_length then .panicked
  else
    let preamble_data : Option (List Nat) :=
      if data_length = 0 then none
      else some ((bytecode.drop data_start).take data_length)
    let initcode := bytecode.drop (data_start + data_length)
    if initcode.isEmpty then .err (.BlueprintError (str "Empty Initcode!"))
    else .ok ⟨erc_version, preamble_data, initcode⟩

/-- `utils.rs::parse_blueprint`, embedded byte for byte.  Rust slice indexing
`bytecode[a..b]` aborts when `b` exceeds the length; those aborts surface as
`RustResult.panicked`.  Note that the length bytes are parsed by hex-encoding
them and calling `from_str_radix` with radix `size_temp.len() * 8` — radix 8
for a single length byte, radix 16 for two. -/
def parse_blueprint (bytecode : List Nat) : RustResult VyperErrors Blueprint :=
  if bytecode.isEmpty then .err (.BlueprintError (str "Empty Bytecode"))
  else if bytecode.length < 2 then .panicked
  else if bytecode.take 2 ≠ [0xFE, 0x71] then
    .err (.BlueprintError (str "Not a blueprint!"))
  else if bytecode.length < 3 then .panicked
  else
    let b2 := bytecode.getD 2 0
    let erc_version := (b2 &&& 0xFC) >>> 2
    let n_length_bytes := b2 &&& 0x3
    if n_length_bytes = 3 then .err (.BlueprintError (str "Reserved bits are set"))
    else if bytecode.length < 3 + n_length_bytes then .panicked
    else
      let size_temp := (bytecode.drop 3).take n_length_bytes
      match size_temp.length with
      | 0 => parse_blueprint_rest bytecode erc_version n_length_bytes 0
      | _ + 1 =>
        match from_str_radix (hex_encode size_temp) (size_temp.length * 8) with
        | some num => parse_blueprint_rest bytecode erc_version n_length_bytes num
        | none => .err .IntParseError

/-- Big-endian fixed-width byte encoding of a natural number (most significant
byte first), used by the spec-modelled encoder. -/
def be_bytes : Nat → Nat → List Nat
  | 0, _ => []
  | k + 1, m => be_bytes k (m / 256) ++ [m % 256]

/-- Modelled from the spec: the canonical ERC-5202 blueprint encoding
`0xFE 0x71 <version:6b><len_enc:2b> [<len_enc bytes length>] [<preamble data>]
<initcode>` (spec sections 4.4 and 6).  No encoder exists in the repository;
this definition follows the spec's format description so that the spec's
round-trip property `decode(encode(x)) == x` can be stated. -/
def encode_blueprint (version len_enc : Nat) (preamble initcode : List Nat) : List Nat :=
  [0xFE, 0x71, version * 4 + len_enc] ++ be_bytes len_enc preamble.length ++ preamble ++ initcode

/-! ## `vyper.rs`: compilation units and batch orchestration

External process invocation is abstracted: an `Exec` oracle maps the command
that `Command::new(..).arg(..)` builds to the captured `Output` (exit status,
stdout, stderr).  The `cfg!(target_os = "windows")` branches are modelled for
the non-Windows build. -/

/-- The command a `std::process::Command` invocation builds: program plus
argument list. -/
structure Cmd where
  program : Str
  args : List Str
deriving DecidableEq

/-- Captured `std::process::Output`: exit-status success flag, stdout and
stderr (after lossy UTF-8 conversion). -/
structure ProcOutput where
  success : Bool
  stdout : Str
  stderr : Str

/-- Oracle for spawning a process and capturing its output. -/
abbrev Exec := Cmd → ProcOutput

/-- `vyper.rs::Vyper`: one compilation unit. -/
structure Vyper where
  path_to_code : Str
  bytecode : Option Str
  abi : Str
  venv : Option Str
deriving DecidableEq

/-- `Vyper::get_vyper` (non-Windows branch): the resolved compiler path is a
pure function of the optional environment root. -/
def Vyper.get_vyper (contract : Vyper) : Str :=
  match contract.venv with
  | some venv => venv ++ str "/bin/vyper"
  | none => str "vyper"

/-- Rust's `str::split(sep)` on characters: the list of segments between
occurrences of `sep`.  Always yields at least one segment. -/
def split_on_char (sep : Char) : Str → List Str
  | [] => [[]]
  | c :: cs =>
    if c = sep then [] :: split_on_char sep cs
    else
      match split_on_char sep cs with
      | [] => [[c]]
      | seg :: rest => (c :: seg) :: rest

/-- The suffix of `s` after its last colon (all of `s` when it has none):
an independent description of what `split(":").last()` returns. -/
def after_last_colon (s : Str) : Str :=
  (s.reverse.takeWhile (fun c => !(c == ':'))).reverse

/-- Post-processing of a successful compile's stdout shared by
`Vyper::compile` / `compile_blueprint` / `compile_ver` (lines 139–147):
pop one character, then either keep the string (when it starts with `0x`)
or keep the last `:`-separated segment. -/
def compile_stdout_bytecode (stdout : Str) : Option Str :=
  let out := stdout.dropLast
  if ¬ out.take 2 = str "0x" then (split_on_char ':' out).getLast?
  else some out

/-- The command `Vyper::compile` spawns: the resolved binary applied to the
source path, with no further flags (lines 135–137). -/
def Vyper.compile_cmd (contract : Vyper) : Cmd :=
  ⟨contract.get_vyper, [contract.path_to_code]⟩

/-- `Vyper::compile` (lines 134–155).  The pair returns the `Result` together
with the unit after the call (`&mut self` in Rust): on success the bytecode
field is overwritten, on failure the unit is untouched and the stderr text is
wrapped in `CompilerError`. -/
def Vyper.compile (contract : Vyper) (exec : Exec) : Except VyperErrors Unit × Vyper :=
  let compiler_output := exec contract.compile_cmd
  if compiler_output.success then
    (.ok (), { contract with bytecode := compile_stdout_bytecode compiler_output.stdout })
  else
    (.error (.CompilerError compiler_output.stderr), contract)

/-- The command `Vyper::compile_ver` spawns (lines 183–187): source path plus
the EVM-version flag. -/
def Vyper.compile_ver_cmd (contract : Vyper) (ver_string : Str) : Cmd :=
  ⟨contract.get_vyper, [contract.path_to_code, str "--evm-version", ver_string]⟩

/-- `VyperStack::compile_many` (lines 387–398): one scoped thread per unit
runs `i.compile()`, whose `Result` is dropped on the floor (the `JoinHandle`
returned by `s.spawn` is ignored); after the scope joins, the function
returns `Ok(())` unconditionally.  Successful units have their bytecode
updated in place; failed units are left untouched. -/
def VyperStack.compile_many (stack : List Vyper) (exec : Exec) :
    Except VyperErrors Unit × List Vyper :=
  (.ok (), stack.map (fun contract => (contract.compile exec).2))

/-- `vyper.rs::Vypers`: the batch of compilation units. -/
structure Vypers where
  path_to_code : List Str
  bytecode : Option (List Str)
  abi : List Str
  venv : Option Str
deriving DecidableEq

/-- Outcome of `Vypers::with_all`, whose Rust return type is `Self`: the
constructor either returns the batch value or aborts the process via
`panic!` — there is no error-return channel. -/
inductive WithAllResult where
  | ok (v : Vypers)
  | panicked (msg : Str)
deriving DecidableEq

/-- `Vypers::with_all` (lines 440–455): `panic!("Mismatched Vector Lengths")`
when the two path sequences differ in length, otherwise the batch value with
no bytecode.  It takes no `Exec` oracle: no compiler invocation can occur. -/
def Vypers.with_all (paths abi_paths : List Str) (venv : Option Str) : WithAllResult :=
  if paths.length ≠ abi_paths.length then .panicked (str "Mismatched Vector Lengths")
  else .ok ⟨paths, none, abi_paths, venv⟩

/-- `Vypers::get_vyper` (non-Windows branch), same resolution logic as
`Vyper::get_vyper`. -/
def Vypers.get_vyper (contracts : Vypers) : Str :=
  match contracts.venv with
  | some venv => venv ++ str "/bin/vyper"
  | none => str "vyper"

/-- The body of one spawned task of `Vypers::compile_many` (lines 531–555):
invoke the shared resolved binary on this task's path, and post-process the
output exactly as `Vyper::compile` does, except that a missing last segment
is reported as `StringParsingError`. -/
def vypers_task (exec : Exec) (bin p : Str) : Except VyperErrors Str :=
  let compiler_output := exec ⟨bin, [p]⟩
  if compiler_output.success then
    let out := compiler_output.stdout.dropLast
    if ¬ out.take 2 = str "0x" then
      match (split_on_char ':' out).getLast? with
      | some e => .ok e
      | none => .error .StringParsingError
    else .ok out
  else .error (.CompilerError compiler_output.stderr)

/-- Completion of the spawned tasks in an arbitrary completion order: each
task, when it completes, writes its own result into its own slot.  `order`
is the order in which tasks happen to finish. -/
def schedule_run {α : Type} (task : Nat → α) (order : List Nat) : Nat → Option α :=
  order.foldl (fun store j => fun k => if k = j then some (task j) else store k)
    (fun _ => none)

/-- Awaiting one `JoinHandle`: reads the completed task's slot.  A slot that
was never filled would be a join failure (`ConcurrencyError`); with a
completion order covering every index this never happens. -/
def await_task (store : Nat → Option (Except VyperErrors Str)) (i : Nat) :
    Except VyperErrors Str :=
  (store i).getD (.error .ConcurrencyError)

/-- The `for child_thread in threads { out_vec.push(child_thread.await??) }`
join loop: collect results in spawn order, stopping at the first error. -/
def collect_results {ε α : Type} : List (Except ε α) → Except ε (List α)
  | [] => .ok []
  | x :: xs =>
    match x with
    | .ok a =>
      match collect_results xs with
      | .ok rest => .ok (a :: rest)
      | .error e => .error e
    | .error e => .error e

/-- `Vypers::compile_many` (lines 523–564): resolve the binary once, spawn
one task per index, let them complete in `order`, then await the handles in
spawn order.  Only when every await succeeds is `self.bytecode` overwritten
with the collected vector; on the first error the batch returns it and the
struct is left untouched. -/
def Vypers.compile_many (contracts : Vypers) (exec : Exec) (order : List Nat) :
    Except VyperErrors Unit × Vypers :=
  let bin := contracts.get_vyper
  let n := contracts.path_to_code.length
  let task := fun i => vypers_task exec bin (contracts.path_to_code.getD i [])
  let store := schedule_run task order
  match collect_results ((List.range n).map (fun i => await_task store i)) with
  | .ok out_vec => (.ok (), { contracts with bytecode := some out_vec })
  | .error e => (.error e, contracts)

/-- `vyper.rs::Evm` (lines 704–716): the closed enumeration of EVM targets.
The third variant is spelled `Petersberg` in the source. -/
inductive Evm where
  | Byzantium
  | Constantinople
  | Petersberg
  | Istanbul
  | Berlin
  | Paris
  | Shanghai
  | Cancun
  | Atlantis
  | Agharta
deriving DecidableEq, Fintype

/-- `impl Display for Evm` (lines 718–733): the flag string passed to the
compiler via `--evm-version`. -/
def Evm.to_string : Evm → Str
  | .Byzantium => str "byzantium"
  | .Constantinople => str "constantinople"
  | .Petersberg => str "petersberg"
  | .Istanbul => str "istanbul"
  | .Berlin => str "berlin"
  | .Paris => str "paris"
  | .Shanghai => str "shanghai"
  | .Cancun => str "cancun"
  | .Atlantis => str "atlantis"
  | .Agharta => str "agharta"

/-! ## `venv.rs`: the toolchain provisioning typestate machine

The phantom-typed `Venv<State>` API is reflected as a labelled transition
system: `venv_step s m` is `some s2` exactly when the Rust API offers method
`m` on `Venv<s>` (so the call type-checks) and a successful call returns
`Venv<s2>`.  The `state` field is private and `new()`/`default()` construct
only `Venv<NotInitialized>`, so these transitions are the only way to obtain
a value of an operation-bearing state. -/

/-- The five typestate tags of `venv.rs` (`Complete` is what the spec calls
`GloballyReady`). -/
inductive VenvState where
  | NotInitialized
  | Initialized
  | Skip
  | Ready
  | Complete
deriving DecidableEq, Fintype

/-- Every method of the `Venv` API other than `new` (which constructs the
initial state).  `try_ready` is offered on both `Venv<Initialized>` and
`Venv<Skip>`; all remaining methods below `get_version` are the
`impl Venv<Ready>` block (lines 261–869). -/
inductive VenvMethod where
  | init
  | skip
  | ivyper_venv
  | try_ready
  | ivyper_pip
  | get_version
  | compile
  | compile_blueprints
  | compile_ver
  | gen_abi
  | get_abi
  | storage_layout
  | ast
  | interface
  | opcodes
  | opcodes_runtime
  | userdoc
  | devdoc
  | compile_many
  | compile_many_ver
  | gen_abi_many
  | get_abi_many
deriving DecidableEq, Fintype

/-- The compile/extract operations: every method of the `impl Venv<Ready>`
block that invokes the compiler or extracts an artifact. -/
def compile_extract_method : VenvMethod → Bool
  | .compile => true
  | .compile_blueprints => true
  | .compile_ver => true
  | .gen_abi => true
  | .get_abi => true
  | .storage_layout => true
  | .ast => true
  | .interface => true
  | .opcodes => true
  | .opcodes_runtime => true
  | .userdoc => true
  | .devdoc => true
  | .compile_many => true
  | .compile_many_ver => true
  | .gen_abi_many => true
  | .get_abi_many => true
  | _ => false

/-- The methods of the `impl Venv<Ready>` block. -/
def ready_method (m : VenvMethod) : Bool :=
  compile_extract_method m || m = .get_version

/-- The labelled transition system of the `Venv` typestate API: `some s2`
when method `m` exists on `Venv<s>` and a successful call yields `Venv<s2>`
(the `impl Venv<Ready>` methods take `&self` and stay in `Ready`). -/
def venv_step (s : VenvState) (m : VenvMethod) : Option VenvState :=
  match s, m with
  | .NotInitialized, .init => some .Initialized
  | .NotInitialized, .skip => some .Skip
  | .Initialized, .ivyper_venv => some .Ready
  | .Initialized, .try_ready => some .Ready
  | .Skip, .ivyper_pip => some .Complete
  | .Skip, .try_ready => some .Complete
  | .Ready, m => if ready_method m then some .Ready else none
  | _, _ => none

/-- Run a sequence of lifecycle method calls from a starting state; `none`
as soon as a call is attempted on a state that does not offer it. -/
def venv_run (s : VenvState) : List VenvMethod → Option VenvState
  | [] => some s
  | m :: ms =>
    match venv_step s m with
    | some s2 => venv_run s2 ms
    | none => none

/-- The provisioning transitions named by the spec: `installBinary`
(`ivyper_venv`) or `tryReady` from `Initialized`, and `installBinaryGlobally`
(`ivyper_pip`) or `tryReady` from `Skip`. -/
def provisioning_method (m : VenvMethod) : Bool :=
  m = .ivyper_venv || m = .ivyper_pip || m = .try_ready

/-! ## Concrete data for witnesses and counterexamples -/

/-- A sample compilation unit with no environment root. -/
def sample_contract : Vyper :=
  ⟨str "contract.vy", none, str "contract.json", none⟩

/-- An oracle whose every invocation fails with stderr `boom`. -/
def fail_exec : Exec := fun _ => ⟨false, [], str "boom"⟩

/-- An oracle whose every invocation succeeds with stdout `a:b` plus a
trailing newline. -/
def colon_exec : Exec := fun _ => ⟨true, str "a:b\n", []⟩

/-- An oracle that succeeds and echoes `0x` followed by the first argument
(the source path) and a trailing newline, so that distinct inputs yield
distinct bytecode strings. -/
def echo_exec : Exec := fun c => ⟨true, str "0x" ++ c.args.getD 0 [] ++ [Char.ofNat 10], []⟩

/-- An oracle that fails exactly on source path `b.vy` with stderr `bad b`,
and behaves like `echo_exec` elsewhere. -/
def fail_b_exec : Exec := fun c =>
  if c.args.getD 0 [] = str "b.vy" then ⟨false, [], str "bad b"⟩ else echo_exec c

/-- A sample batch of two units. -/
def sample_vypers : Vypers :=
  ⟨[str "a.vy", str "b.vy"], none, [str "a.json", str "b.json"], none⟩

/-- The claim's words "the trimmed stdout string": stdout with leading and
trailing whitespace removed.  Stated from the spec, for comparison with what
the source actually stores. -/
def spec_trimmed (s : Str) : Str :=
  ((s.dropWhile Char.isWhitespace).reverse.dropWhile Char.isWhitespace).reverse

/-! ## Helper lemmas -/

-- Sanity checks: the repository's own test vectors for `parse_blueprint`.
example : parse_blueprint [0xFE, 0x71, 0x00, 0x00] = .ok ⟨0, none, [0]⟩ := by decide

example :
    parse_blueprint [0xFE, 0x71, 0x01, 0x07, 0xFF, 0xFF, 0xFF, 0xFF, 0xFF, 0xFF, 0xFF, 0x00] =
      .ok ⟨0, some (List.replicate 7 0xFF), [0]⟩ := by decide

set_option maxRecDepth 20000 in
example :
    parse_blueprint ([0xFE, 0x71, 0x02, 0x01, 0x00] ++ List.replicate 256 0xFF ++ [0x00]) =
      .ok ⟨0, some (List.replicate 256 0xFF), [0]⟩ := by decide


theorem split_on_char_ne_nil (sep : Char) : ∀ s : Str, split_on_char sep s ≠ []
  | [] => by simp [split_on_char]
  | c :: cs => by
    simp only [split_on_char]
    split
    · simp
    · cases h : split_on_char sep cs with
      | nil => simp
      | cons seg rest => simp [h]

theorem takeWhile_append_neg {α : Type} (p : α → Bool) (b : α) (hb : p b = false) :
    ∀ xs : List α, (xs ++ [b]).takeWhile p = xs.takeWhile p
  | [] => by simp [List.takeWhile_cons, hb]
  | x :: xs => by
    by_cases hx : p x
    · simp only [List.cons_append, List.takeWhile_cons, hx, if_pos,
        takeWhile_append_neg p b hb xs]
    · simp only [Bool.not_eq_true] at hx
      simp [List.takeWhile_cons, hx]

theorem takeWhile_append_pos {α : Type} (p : α → Bool) (b : α) (hb : p b = true) :
    ∀ xs : List α, xs.all p = true → (xs ++ [b]).takeWhile p = xs ++ [b]
  | [], _ => by simp [List.takeWhile_cons, hb]
  | x :: xs, hall => by
    simp only [List.all_cons, Bool.and_eq_true] at hall
    simp [List.takeWhile_cons, hall.1, takeWhile_append_pos p b hb xs hall.2]

theorem takeWhile_append_notall {α : Type} (p : α → Bool) (b : α) :
    ∀ xs : List α, xs.all p = false → (xs ++ [b]).takeWhile p = xs.takeWhile p
  | [], hall => by simp at hall
  | x :: xs, hall => by
    by_cases hx : p x
    · simp only [List.all_cons, hx, Bool.true_and] at hall
      simp [List.takeWhile_cons, hx, takeWhile_append_notall p b xs hall]
    · simp only [Bool.not_eq_true] at hx
      simp [List.takeWhile_cons, hx]

theorem split_on_char_no_sep (sep : Char) :
    ∀ s : Str, s.all (fun c => !(c == sep)) = true → split_on_char sep s = [s]
  | [], _ => rfl
  | c :: cs, hall => by
    simp only [List.all_cons, Bool.and_eq_true, Bool.not_eq_true', beq_eq_false_iff_ne,
      ne_eq] at hall
    simp only [split_on_char, if_neg hall.1,
      split_on_char_no_sep sep cs (by simpa using hall.2)]

theorem split_on_char_singleton (sep : Char) :
    ∀ s seg : Str, split_on_char sep s = [seg] →
      s.all (fun c => !(c == sep)) = true ∧ seg = s
  | [], seg, h => by
    simp only [split_on_char, List.cons.injEq, and_true] at h
    exact ⟨rfl, h.symm⟩
  | c :: cs, seg, h => by
    by_cases hc : c = sep
    · rw [split_on_char, if_pos hc] at h
      injection h with h1 h2
      exact absurd h2 (split_on_char_ne_nil sep cs)
    · rw [split_on_char, if_neg hc] at h
      cases hsplit : split_on_char sep cs with
      | nil => exact absurd hsplit (split_on_char_ne_nil sep cs)
      | cons seg2 rest =>
        rw [hsplit] at h
        injection h with h1 h2
        rw [h2] at hsplit
        obtain ⟨hall, rfl⟩ := split_on_char_singleton sep cs seg2 hsplit
        refine ⟨?_, h1.symm⟩
        simp [List.all_cons, hc, hall]

/-- `split(sep).last()` is exactly the suffix after the last separator. -/
theorem split_on_char_getLast? (sep : Char) :
    ∀ s : Str, (split_on_char sep s).getLast? =
      some ((s.reverse.takeWhile (fun c => !(c == sep))).reverse)
  | [] => by simp [split_on_char]
  | c :: cs => by
    have ih := split_on_char_getLast? sep cs
    by_cases hc : c = sep
    · cases hsplit : split_on_char sep cs with
      | nil => exact absurd hsplit (split_on_char_ne_nil sep cs)
      | cons seg rest =>
        rw [hsplit] at ih
        simp only [split_on_char, if_pos hc, hsplit, List.getLast?_cons_cons, ih,
          List.reverse_cons]
        rw [takeWhile_append_neg _ c (by simp [hc])]
    · cases hsplit : split_on_char sep cs with
      | nil => exact absurd hsplit (split_on_char_ne_nil sep cs)
      | cons seg rest =>
        rw [hsplit] at ih
        cases rest with
        | nil =>
          obtain ⟨hall, heq⟩ := split_on_char_singleton sep cs seg hsplit
          have hallrev : cs.reverse.all (fun x => !(x == sep)) = true := by
            rw [List.all_reverse]; exact hall
          simp only [split_on_char, if_neg hc, hsplit, List.reverse_cons]
          rw [takeWhile_append_pos _ c (by simp [hc]) _ hallrev]
          simp [heq]
        | cons r rs =>
          have hnotall : cs.all (fun x => !(x == sep)) = false := by
            by_contra hOne
            have hall : cs.all (fun x => !(x == sep)) = true := by
              revert hOne; cases cs.all fun x => !(x == sep) <;> simp
            rw [split_on_char_no_sep sep cs hall] at hsplit
            simp at hsplit
          have hnotallrev : cs.reverse.all (fun x => !(x == sep)) = false := by
            rw [List.all_reverse]; exact hnotall
          rw [List.getLast?_cons_cons] at ih
          simp only [split_on_char, if_neg hc, hsplit, List.getLast?_cons_cons,
            List.reverse_cons]
          rw [takeWhile_append_notall _ c _ hnotallrev]
          exact ih

theorem schedule_run_eq {α : Type} (task : Nat → α) :
    ∀ (order : List Nat) (st : Nat → Option α) (i : Nat),
      (i ∈ order ∨ st i = some (task i)) →
      (order.foldl (fun store j => fun k => if k = j then some (task j) else store k) st) i =
        some (task i)
  | [], st, i, h => by
    cases h with
    | inl h => simp at h
    | inr h => simpa using h
  | j :: rest, st, i, h => by
    simp only [List.foldl_cons]
    apply schedule_run_eq task rest _ i
    by_cases hij : i = j
    · right; simp [hij]
    · cases h with
      | inl h =>
        rcases List.mem_cons.mp h with h1 | h1
        · exact absurd h1 hij
        · exact Or.inl h1
      | inr h => right; simpa [hij] using h

/-- A slot of a completed schedule holds its own task's result: the written
value does not depend on when the task completed relative to its siblings. -/
theorem schedule_run_covers {α : Type} (task : Nat → α) (order : List Nat) (i : Nat)
    (h : i ∈ order) : schedule_run task order i = some (task i) :=
  schedule_run_eq task order _ i (Or.inl h)

theorem collect_results_ok_length {ε α : Type} :
    ∀ (l : List (Except ε α)) (res : List α), collect_results l = .ok res →
      res.length = l.length
  | [], res, h => by
    simp only [collect_results, Except.ok.injEq] at h
    simp [← h]
  | x :: xs, res, h => by
    cases x with
    | error e => simp [collect_results] at h
    | ok a =>
      cases hc : collect_results xs with
      | error e => simp [collect_results, hc] at h
      | ok rest =>
        simp only [collect_results, hc, Except.ok.injEq] at h
        simp [← h, collect_results_ok_length xs rest hc]

theorem collect_results_ok_getD {ε α : Type} (e0 : ε) (a0 : α) :
    ∀ (l : List (Except ε α)) (res : List α), collect_results l = .ok res →
      ∀ i, i < l.length → l.getD i (.error e0) = .ok (res.getD i a0)
  | [], _, _, i, hi => by simp at hi
  | x :: xs, res, h, i, hi => by
    cases x with
    | error e => simp [collect_results] at h
    | ok a =>
      cases hc : collect_results xs with
      | error e => simp [collect_results, hc] at h
      | ok rest =>
        simp only [collect_results, hc, Except.ok.injEq] at h
        cases i with
        | zero => simp [← h]
        | succ n =>
          simp only [List.getD_cons_succ, ← h]
          exact collect_results_ok_getD e0 a0 xs rest hc n (by simpa using hi)

theorem collect_results_first_error {ε α : Type} :
    ∀ l : List (Except ε α), (∃ x ∈ l, ∃ e, x = .error e) →
      ∃ j, j < l.length ∧ ∃ e : ε, l.getD j (.error e) = .error e ∧
        collect_results l = .error e
  | [], h => by simp at h
  | x :: xs, h => by
    cases x with
    | error e => exact ⟨0, by simp, e, by simp, by simp [collect_results]⟩
    | ok a =>
      have hxs : ∃ x ∈ xs, ∃ e, x = .error e := by
        obtain ⟨x, hx, e, hxe⟩ := h
        rcases List.mem_cons.mp hx with h1 | h1
        · rw [h1] at hxe; cases hxe
        · exact ⟨x, h1, e, hxe⟩
      obtain ⟨j, hj, e, hget, hcoll⟩ := collect_results_first_error xs hxs
      exact ⟨j + 1, by simpa using hj, e, by simpa using hget,
        by simp [collect_results, hcoll]⟩

theorem map_range_getD {α : Type} (f : Nat → α) (n i : Nat) (d : α) (h : i < n) :
    ((List.range n).map f).getD i d = f i := by
  rw [List.getD_eq_getElem?_getD, List.getElem?_map, List.getElem?_range h]
  rfl

/-- Awaiting the join handles in spawn order after an arbitrary completion
order that covered every index reads exactly each task's own result. -/
theorem awaited_eq (task : Nat → Except VyperErrors Str) (order : List Nat) (n : Nat)
    (hcover : ∀ i, i < n → i ∈ order) :
    (List.range n).map (fun i => await_task (schedule_run task order) i) =
      (List.range n).map task := by
  apply List.map_congr_left
  intro a ha
  have hmem : a ∈ order := hcover a (List.mem_range.mp ha)
  simp [await_task, schedule_run_covers task order a hmem]

/-- `Vypers::compile_many` under any completion order covering every index is
the in-spawn-order collection of the per-index task results. -/
theorem compile_many_eq (contracts : Vypers) (exec : Exec) (order : List Nat)
    (hcover : ∀ i, i < contracts.path_to_code.length → i ∈ order) :
    Vypers.compile_many contracts exec order =
      match collect_results ((List.range contracts.path_to_code.length).map
          (fun i => vypers_task exec contracts.get_vyper (contracts.path_to_code.getD i []))) with
      | .ok out_vec => (.ok (), { contracts with bytecode := some out_vec })
      | .error e => (.error e, contracts) := by
  simp only [Vypers.compile_many]
  rw [awaited_eq _ order _ hcover]

/-- A task whose compiler invocation succeeded returns a bytecode string:
Rust's `split` iterator is never empty, so the `StringParsingError` branch is
dead. -/
theorem vypers_task_ok_of_success (exec : Exec) (bin p : Str)
    (h : (exec ⟨bin, [p]⟩).success = true) :
    ∃ s, vypers_task exec bin p = .ok s := by
  unfold vypers_task
  by_cases hs : (exec ⟨bin, [p]⟩).stdout.dropLast.take 2 = str "0x"
  · refine ⟨(exec ⟨bin, [p]⟩).stdout.dropLast, ?_⟩
    simp [h, hs]
  · refine ⟨after_last_colon (exec ⟨bin, [p]⟩).stdout.dropLast, ?_⟩
    simp [h, hs, split_on_char_getLast?, after_last_colon]

theorem vypers_task_fail (exec : Exec) (bin p : Str)
    (h : (exec ⟨bin, [p]⟩).success = false) :
    vypers_task exec bin p = .error (.CompilerError (exec ⟨bin, [p]⟩).stderr) := by
  unfold vypers_task
  simp [h]

theorem vypers_task_error_elim (exec : Exec) (bin p : Str) (e : VyperErrors)
    (h : vypers_task exec bin p = .error e) :
    (exec ⟨bin, [p]⟩).success = false ∧
      e = .CompilerError (exec ⟨bin, [p]⟩).stderr := by
  by_cases hs : (exec ⟨bin, [p]⟩).success
  · obtain ⟨s, hok⟩ := vypers_task_ok_of_success exec bin p hs
    rw [hok] at h
    cases h
  · have hs' : (exec ⟨bin, [p]⟩).success = false := by
      revert hs; cases (exec ⟨bin, [p]⟩).success <;> simp
    rw [vypers_task_fail exec bin p hs'] at h
    cases h
    exact ⟨hs', rfl⟩

/-- What `compile_stdout_bytecode` stores, described via `after_last_colon`:
pop one character, then keep everything after the last colon unless the
string already starts with `0x`. -/
theorem compile_stdout_bytecode_eq (stdout : Str) :
    compile_stdout_bytecode stdout =
      some (if stdout.dropLast.take 2 = str "0x" then stdout.dropLast
            else after_last_colon stdout.dropLast) := by
  unfold compile_stdout_bytecode after_last_colon
  by_cases hs : stdout.dropLast.take 2 = str "0x"
  · simp [hs]
  · simp [hs, split_on_char_getLast?]

/-- Along any successful run of the lifecycle machine, a compile/extract call
is preceded by a provisioning transition unless the run already starts in
`Ready`. -/
theorem venv_run_compile_needs_provision :
    ∀ (ms : List VenvMethod) (s : VenvState), venv_run s ms ≠ none →
      ∀ k, k < ms.length → compile_extract_method (ms.getD k .init) = true →
        s = .Ready ∨ ∃ j, j < k ∧ provisioning_method (ms.getD j .init) = true
  | [], _, _, k, hk, _ => by simp at hk
  | m :: ms, s, hrun, k, hk, hce => by
    rw [venv_run] at hrun
    cases hstep : venv_step s m with
    | none => rw [hstep] at hrun; simp at hrun
    | some s2 =>
      rw [hstep] at hrun
      cases k with
      | zero =>
        left
        simp only [List.getD_cons_zero] at hce
        have hdef : venv_step s m ≠ none := by rw [hstep]; simp
        revert hdef
        cases s <;> cases m <;> simp_all [venv_step, ready_method, compile_extract_method]
      | succ k2 =>
        simp only [List.getD_cons_succ] at hce
        have ih := venv_run_compile_needs_provision ms s2 hrun k2 (by simpa using hk) hce
        cases ih with
        | inr h =>
          obtain ⟨j, hj, hp⟩ := h
          exact Or.inr ⟨j + 1, by omega, by simpa using hp⟩
        | inl h =>
          by_cases hsR : s = .Ready
          · exact Or.inl hsR
          · right
            refine ⟨0, by omega, ?_⟩
            simp only [List.getD_cons_zero]
            subst h
            revert hstep hsR
            cases s <;> cases m <;>
              simp [venv_step, provisioning_method, ready_method, compile_extract_method]

/-! ## Claim theorems -/

/-- C1: the decoder does not read a single length byte as a big-endian
integer.  The length bytes are hex-encoded and parsed with radix
`len * 8`, so a one-byte length field is read in octal: the well-formed
blueprint `FE 71 01 08` followed by eight preamble bytes and one initcode
byte is rejected with `IntParseError` (hex digit `8` is no octal digit), and
a length byte `0x10` (decimal 16) is read as 8, silently mis-slicing the
container. -/
theorem C1_length_byte_misparsed :
    parse_blueprint ([0xFE, 0x71, 0x01, 0x08] ++ List.replicate 8 0xBB ++ [0x01]) =
      .err .IntParseError ∧
    parse_blueprint ([0xFE, 0x71, 0x01, 0x10] ++ List.replicate 16 0xAA ++ [0x01]) =
      .ok ⟨0, some (List.replicate 8 0xAA), List.replicate 8 0xAA ++ [0x01]⟩ := by
  constructor <;> decide

/-- C2: the round-trip `decode (encode x) = x` fails for the valid blueprint
with version 0, length-encoding 1, an 8-byte preamble and initcode `[0x01]`:
its canonical encoding declares the length in the single byte `0x08`, which
the decoder rejects with `IntParseError` instead of reading it as 8. -/
theorem C2_roundtrip_broken :
    parse_blueprint (encode_blueprint 0 1 (List.replicate 8 0x00) [0x01]) =
      .err .IntParseError ∧
    ¬ parse_blueprint (encode_blueprint 0 1 (List.replicate 8 0x00) [0x01]) =
        .ok ⟨0, some (List.replicate 8 0x00), [0x01]⟩ := by
  constructor <;> decide

/-- C3: the decoder is not total.  It aborts via out-of-bounds slicing on the
one-byte input `[0xFE]` (the slice `bytecode[0..2]`), on `[0xFE, 0x71]` (the
index `bytecode[2]`), on `[0xFE, 0x71, 0x01]` (the length-byte slice), and on
a declared preamble longer than the input; only the empty input is answered
with an error as specified. -/
theorem C3_decoder_panics_on_short_input :
    parse_blueprint [0xFE] = .panicked ∧
    parse_blueprint [0xFE, 0x71] = .panicked ∧
    parse_blueprint [0xFE, 0x71, 0x01] = .panicked ∧
    parse_blueprint [0xFE, 0x71, 0x01, 0x07, 0xAA] = .panicked ∧
    parse_blueprint [] = .err (.BlueprintError (str "Empty Bytecode")) := by
  decide

/-- C4 counterexample: an input whose byte at index 2 has both bottom bits
set but whose first two bytes are not `0xFE 0x71` fails `NotABlueprint`, not
`ReservedBitsSet` — the reserved-bits check is not independent of the
surrounding bytes. -/
theorem C4_counterexample :
    (([0x00, 0x00, 0x03] : List Nat).getD 2 0 &&& 0x3) = 3 ∧
    parse_blueprint [0x00, 0x00, 0x03] = .err (.BlueprintError (str "Not a blueprint!")) ∧
    ¬ parse_blueprint [0x00, 0x00, 0x03] =
        .err (.BlueprintError (str "Reserved bits are set")) := by
  decide

/-- C4 (amended): for every input of length at least 3 whose first two bytes
are `0xFE 0x71`, if the bottom two bits of byte index 2 are `0b11` then
decoding fails `ReservedBitsSet`, regardless of all remaining byte values. -/
theorem C4_reserved_bits_rejected (bs : List Nat) (hlen : 3 ≤ bs.length)
    (hmagic : bs.take 2 = [0xFE, 0x71]) (hbits : bs.getD 2 0 &&& 0x3 = 3) :
    parse_blueprint bs = .err (.BlueprintError (str "Reserved bits are set")) := by
  have h0 : ¬ bs.isEmpty = true := by
    cases bs with
    | nil => simp at hlen
    | cons a l => simp
  have h2 : ¬ bs.length < 2 := by omega
  have h3 : ¬ bs.take 2 ≠ [0xFE, 0x71] := not_not_intro hmagic
  have h4 : ¬ bs.length < 3 := by omega
  simp only [parse_blueprint]
  rw [if_neg h0, if_neg h2, if_neg h3, if_neg h4, if_pos hbits]

/-- C4 witness: the amended theorem applied at the minimal reserved input. -/
theorem C4_reserved_bits_rejected_witness :
    parse_blueprint [0xFE, 0x71, 0x03] =
      .err (.BlueprintError (str "Reserved bits are set")) :=
  C4_reserved_bits_rejected [0xFE, 0x71, 0x03] (by decide) (by decide) (by decide)

/-- C7 counterexample: constructing a batch from one source path and zero abi
paths does not return any error value — `with_all`'s return type has no error
channel — it aborts the process via `panic!("Mismatched Vector Lengths")`. -/
theorem C7_counterexample :
    Vypers.with_all [str "a.vy"] [] none = .panicked (str "Mismatched Vector Lengths") := by
  decide

/-- C7 (amended): for all sequences of different lengths, `with_all` panics
with the message `Mismatched Vector Lengths` before any compilation work
(the constructor never invokes the compiler: it takes no `Exec` oracle and
produces no bytecode). -/
theorem C7_mismatch_panics (paths abi_paths : List Str) (venv : Option Str)
    (h : paths.length ≠ abi_paths.length) :
    Vypers.with_all paths abi_paths venv = .panicked (str "Mismatched Vector Lengths") := by
  unfold Vypers.with_all
  rw [if_pos h]

/-- C7 witness: the amended theorem applied at a concrete 1-versus-2
mismatch. -/
theorem C7_mismatch_panics_witness :
    Vypers.with_all [str "a.vy"] [str "a.json", str "b.json"] none =
      .panicked (str "Mismatched Vector Lengths") :=
  C7_mismatch_panics [str "a.vy"] [str "a.json", str "b.json"] none (by decide)

/-- C10: no EVM target maps to the flag string `petersburg`.  The source
spells the variant `Petersberg` and `compile_ver` passes the flag
`petersberg` for it (each variant maps to its own name in lower case, but the
enumeration does not contain `Petersburg`), so the claim's example mapping
does not exist. -/
theorem C10_petersberg_flag :
    (∀ e : Evm, ¬ Evm.to_string e = str "petersburg") ∧
    Evm.to_string .Petersberg = str "petersberg" ∧
    ¬ (str "petersberg") = (str "petersburg") ∧
    Vyper.compile_ver_cmd sample_contract (Evm.to_string .Petersberg) =
      ⟨str "vyper", [str "contract.vy", str "--evm-version", str "petersberg"]⟩ := by
  refine ⟨by decide, by decide, by decide, by decide⟩

/-- C8 counterexample: a successful invocation whose stdout is `a:b` plus a
newline stores bytecode `b` — the text after the last colon — not the trimmed
stdout `a:b`. -/
theorem C8_counterexample :
    Vyper.compile sample_contract colon_exec =
      (.ok (), { sample_contract with bytecode := some (str "b") }) ∧
    spec_trimmed (str "a:b\n") = str "a:b" ∧
    ¬ (some (str "b") : Option Str) = some (spec_trimmed (str "a:b\n")) := by
  refine ⟨by decide, by decide, by decide⟩

/-- C8 (amended): `compile` invokes the resolved binary on `path_to_code`
with no extra flags; on exit zero it pops the final character of stdout and
stores it as bytecode when it starts with `0x`, and otherwise stores the
portion after its last colon; on non-zero exit it fails with
`CompilerError(stderr)` and leaves the unit, including its bytecode field,
unchanged. -/
theorem C8_compile_behavior (contract : Vyper) (exec : Exec) :
    contract.compile_cmd = ⟨contract.get_vyper, [contract.path_to_code]⟩ ∧
    ((exec contract.compile_cmd).success = true →
      contract.compile exec =
        (.ok (), { contract with
                   bytecode := some
                     (if (exec contract.compile_cmd).stdout.dropLast.take 2 = str "0x"
                      then (exec contract.compile_cmd).stdout.dropLast
                      else after_last_colon (exec contract.compile_cmd).stdout.dropLast) })) ∧
    ((exec contract.compile_cmd).success = false →
      contract.compile exec =
        (.error (.CompilerError (exec contract.compile_cmd).stderr), contract)) := by
  refine ⟨rfl, ?_, ?_⟩
  · intro hs
    simp only [Vyper.compile]
    rw [compile_stdout_bytecode_eq]
    simp [hs]
  · intro hs
    simp only [Vyper.compile]
    simp [hs]

/-- C8 witness: the amended theorem applied at the colon-output oracle. -/
theorem C8_compile_behavior_witness :
    Vyper.compile sample_contract colon_exec =
      (.ok (), { sample_contract with bytecode := some (str "b") }) := by
  have h := (C8_compile_behavior sample_contract colon_exec).2.1 (by decide)
  rw [h]
  decide

/-- C6 counterexample: with an oracle whose every invocation exits non-zero,
the single unit's own `compile` fails with `CompilerError("boom")`, yet
`VyperStack::compile_many` still returns `Ok(())` — the scoped threads'
results are discarded. -/
theorem C6_stack_errors_dropped :
    (VyperStack.compile_many [sample_contract] fail_exec).1 = .ok () ∧
    (fail_exec (Vyper.compile_cmd sample_contract)).success = false ∧
    (Vyper.compile sample_contract fail_exec).1 =
      .error (.CompilerError (str "boom")) := by
  refine ⟨by decide, by decide, by decide⟩

/-- If every entry before index `j` succeeds and the entry at `j` is the
error `e`, the sequential join loop returns exactly `e`: the first failure
in spawn order is the one reported. -/
theorem collect_results_error_at {ε α : Type} :
    ∀ (l : List (Except ε α)) (j : Nat) (e : ε), j < l.length →
      l.getD j (.error e) = .error e →
      (∀ k, k < j → ∃ a, l.getD k (.error e) = .ok a) →
      collect_results l = .error e
  | [], j, e, hj, _, _ => by simp at hj
  | x :: xs, j, e, hj, hget, hpre => by
    cases j with
    | zero =>
      simp only [List.getD_cons_zero] at hget
      subst hget
      simp [collect_results]
    | succ j2 =>
      obtain ⟨a, ha⟩ := hpre 0 (Nat.succ_pos _)
      simp only [List.getD_cons_zero] at ha
      subst ha
      simp only [List.getD_cons_succ] at hget
      have hrec := collect_results_error_at xs j2 e (by simpa using hj) hget
        (fun k hk => by
          obtain ⟨b, hb⟩ := hpre (k + 1) (by omega)
          exact ⟨b, by simpa using hb⟩)
      simp [collect_results, hrec]

/-- C6 (amended): the asynchronous batch `Vypers::compile_many` does surface
unit failure: when unit `j`'s invocation exits non-zero and every unit before
it in spawn order succeeds — that is, `j` is the first failing unit, the one
at which the sequential join loop first detects failure — the batch returns
the `CompilerError` carrying exactly unit `j`'s stderr, for every completion
order, and leaves the struct untouched.  The synchronous
`VyperStack::compile_many` instead discards the failure (see the
counterexample). -/
theorem C6_async_first_failure (contracts : Vypers) (exec : Exec) (order : List Nat)
    (hcover : ∀ i, i < contracts.path_to_code.length → i ∈ order)
    (j : Nat) (hj : j < contracts.path_to_code.length)
    (hfail : (exec ⟨contracts.get_vyper, [contracts.path_to_code.getD j []]⟩).success = false)
    (hfirst : ∀ k, k < j →
      (exec ⟨contracts.get_vyper, [contracts.path_to_code.getD k []]⟩).success = true) :
    Vypers.compile_many contracts exec order =
      (.error (.CompilerError
        (exec ⟨contracts.get_vyper, [contracts.path_to_code.getD j []]⟩).stderr),
        contracts) := by
  rw [compile_many_eq contracts exec order hcover]
  have hcoll := collect_results_error_at
    ((List.range contracts.path_to_code.length).map
      (fun k => vypers_task exec contracts.get_vyper (contracts.path_to_code.getD k [])))
    j
    (.CompilerError (exec ⟨contracts.get_vyper, [contracts.path_to_code.getD j []]⟩).stderr)
    (by simpa using hj)
    (by
      rw [map_range_getD _ _ j _ hj]
      exact vypers_task_fail exec contracts.get_vyper _ hfail)
    (fun k hk => by
      have hkn : k < contracts.path_to_code.length := by omega
      rw [map_range_getD _ _ k _ hkn]
      exact vypers_task_ok_of_success exec contracts.get_vyper _ (hfirst k hk))
  rw [hcoll]

/-- C6 witness: the amended theorem applied at a two-unit batch whose second
unit is the first (and only) failing one, with the tasks completing in
reversed order. -/
theorem C6_async_first_failure_witness :
    Vypers.compile_many sample_vypers fail_b_exec [1, 0] =
      (.error (.CompilerError
        (fail_b_exec ⟨sample_vypers.get_vyper,
          [sample_vypers.path_to_code.getD 1 []]⟩).stderr),
        sample_vypers) :=
  C6_async_first_failure sample_vypers fail_b_exec [1, 0]
    (by
      intro i hi
      have h2 : i < 2 := by simpa [sample_vypers] using hi
      have h01 : i = 0 ∨ i = 1 := by omega
      rcases h01 with rfl | rfl <;> decide)
    1 (by decide) (by decide)
    (by
      intro k hk
      have hk0 : k = 0 := by omega
      subst hk0
      decide)

/-- C5: whenever the asynchronous batch compile succeeds, the stored bytecode
sequence has exactly one entry per source path and the entry at index `i` is
the result of this unit's own task on `source_paths[i]`; moreover the whole
outcome is identical to the one under in-order completion, so the alignment
is independent of the completion order. -/
theorem C5_compile_many_index_aligned (contracts : Vypers) (exec : Exec) (order : List Nat)
    (hcover : ∀ i, i < contracts.path_to_code.length → i ∈ order)
    (hok : (Vypers.compile_many contracts exec order).1 = .ok ()) :
    ∃ res, (Vypers.compile_many contracts exec order).2.bytecode = some res ∧
      res.length = contracts.path_to_code.length ∧
      (∀ i, i < contracts.path_to_code.length →
        vypers_task exec contracts.get_vyper (contracts.path_to_code.getD i []) =
          .ok (res.getD i [])) ∧
      Vypers.compile_many contracts exec order =
        Vypers.compile_many contracts exec (List.range contracts.path_to_code.length) := by
  have hcover2 : ∀ i, i < contracts.path_to_code.length →
      i ∈ List.range contracts.path_to_code.length := fun i hi => List.mem_range.mpr hi
  rw [compile_many_eq contracts exec order hcover] at hok ⊢
  rw [compile_many_eq contracts exec (List.range contracts.path_to_code.length) hcover2]
  cases hc : collect_results ((List.range contracts.path_to_code.length).map
      (fun i => vypers_task exec contracts.get_vyper (contracts.path_to_code.getD i []))) with
  | error e =>
    rw [hc] at hok
    simp at hok
  | ok out_vec =>
    refine ⟨out_vec, rfl, ?_, ?_, rfl⟩
    · have hlen := collect_results_ok_length _ _ hc
      simpa using hlen
    · intro i hi
      have hg := collect_results_ok_getD VyperErrors.IoError ([] : Str) _ _ hc i
        (by simpa using hi)
      rw [map_range_getD _ _ i _ hi] at hg
      exact hg

/-- C5 witness: a two-unit batch with an echoing oracle, completing in
reversed order. -/
theorem C5_compile_many_index_aligned_witness :
    ∃ res, (Vypers.compile_many sample_vypers echo_exec [1, 0]).2.bytecode = some res ∧
      res.length = sample_vypers.path_to_code.length ∧
      (∀ i, i < sample_vypers.path_to_code.length →
        vypers_task echo_exec sample_vypers.get_vyper
          (sample_vypers.path_to_code.getD i []) = .ok (res.getD i [])) ∧
      Vypers.compile_many sample_vypers echo_exec [1, 0] =
        Vypers.compile_many sample_vypers echo_exec
          (List.range sample_vypers.path_to_code.length) :=
  C5_compile_many_index_aligned sample_vypers echo_exec [1, 0]
    (by
      intro i hi
      have h2 : i < 2 := by simpa [sample_vypers] using hi
      have h01 : i = 0 ∨ i = 1 := by omega
      rcases h01 with rfl | rfl <;> decide)
    (by decide)

/-- C9: in the `Venv` typestate machine, (1) every state offering a
compile/extract method is `Ready` (hence within {`Ready`, `Complete`}); (2)
`Ready` is entered only from `Initialized` via `ivyper_venv` or `try_ready`
(or stays `Ready`); (3) `Complete` is entered only from `Skip` via
`ivyper_pip` or `try_ready`; and (4) along every well-typed call sequence
from the initial state, any compile/extract call is strictly preceded by one
of those provisioning transitions. -/
theorem C9_typestate_guard :
    (∀ s m, venv_step s m ≠ none → compile_extract_method m = true →
      s = VenvState.Ready ∨ s = VenvState.Complete) ∧
    (∀ s m, venv_step s m = some VenvState.Ready →
      s = VenvState.Ready ∨
        (s = VenvState.Initialized ∧
          (m = VenvMethod.ivyper_venv ∨ m = VenvMethod.try_ready))) ∧
    (∀ s m, venv_step s m = some VenvState.Complete →
      s = VenvState.Skip ∧ (m = VenvMethod.ivyper_pip ∨ m = VenvMethod.try_ready)) ∧
    (∀ ms : List VenvMethod, venv_run VenvState.NotInitialized ms ≠ none →
      ∀ k, k < ms.length → compile_extract_method (ms.getD k .init) = true →
        ∃ j, j < k ∧ provisioning_method (ms.getD j .init) = true) := by
  refine ⟨by decide, by decide, by decide, ?_⟩
  intro ms hrun k hk hce
  rcases venv_run_compile_needs_provision ms VenvState.NotInitialized hrun k hk hce with h | h
  · exact absurd h (by decide)
  · exact h

/-- C9 witness: the trace `init; ivyper_venv; compile` type-checks, and the
guard theorem locates the provisioning transition before the compile call. -/
theorem C9_typestate_guard_witness :
    ∃ j, j < 2 ∧ provisioning_method
      ([VenvMethod.init, VenvMethod.ivyper_venv, VenvMethod.compile].getD j .init) = true :=
  C9_typestate_guard.2.2.2 [VenvMethod.init, VenvMethod.ivyper_venv, VenvMethod.compile]
    (by decide) 2 (by decide) (by decide)
